import Mathlib

/-!
Shallow embedding of the chart-construction helpers of the notebook
`src/_posts/scikit/train-vs-test-error/Train error vs Test error.ipynb`:
the function `plot_embedding` (called `NormalizeAndPlotEmbedding` in the
specification) and the helper `matplotlib_to_plotly`.

Modelling conventions:
- NumPy float arrays are modelled with exact rationals (ℚ); an N×2 matrix is
  a `List (ℚ × ℚ)`.
- A run that raises an uncaught Python exception (ValueError on an empty
  array, IndexError on an out-of-range access, NameError when the trace
  coordinate lists were never assigned, ZeroDivisionError) is modelled as
  `none`.
- The source function reads the notebook globals `digits.target` (annotation
  text), `y` (annotation colour) and `digits.data.shape[0]` (the bound of the
  deduplication loop): these ambient globals are passed as explicit extra
  parameters `digitsTarget`, `yGlobal` and `digitsLen` of the model so that
  dependence on them can be stated.
-/

namespace EmbedPlot

/-- A 2-D point (one row of the embedding matrix), exact-rational model of a
float pair. -/
abbrev Pt := ℚ × ℚ

/-- The deduplication threshold `4e-3` of the source. -/
def thr : ℚ := 4 / 1000

/-- Squared Euclidean distance, as in `np.sum((X[i] - shown_images) ** 2, 1)`. -/
def sqdist (p q : Pt) : ℚ := (p.1 - q.1) ^ 2 + (p.2 - q.2) ^ 2

/-- `np.min` of a column, `l.foldl min a` over a nonempty list; the empty case
(on which NumPy raises ValueError) is given the junk value 0 and is guarded
against at every use. -/
def qmin : List ℚ → ℚ
  | [] => 0
  | a :: l => l.foldl min a

/-- `np.max` of a column, dual to `qmin`. -/
def qmax : List ℚ → ℚ
  | [] => 0
  | a :: l => l.foldl max a

/-- One application of the scaling step `(v - min) / (max - min)` of the
source, at the IEEE level: when `max = min` the source computes `0/0 = NaN`
(every column value then equals `min`), modelled as `none`; otherwise the
exact quotient. -/
def nrmC (mn mx v : ℚ) : Option ℚ := if mx = mn then none else some ((v - mn) / (mx - mn))

/-- The full normalization step `X = (X - x_min) / (x_max - x_min)` with the
IEEE degenerate-column behaviour made explicit: an entry is `none` exactly
when its column is constant (`max = min`), in which case the source produces
NaN for it. -/
def normalizeX (X : List Pt) : List (Option ℚ × Option ℚ) :=
  X.map (fun p =>
    (nrmC (qmin (X.map Prod.fst)) (qmax (X.map Prod.fst)) p.1,
     nrmC (qmin (X.map Prod.snd)) (qmax (X.map Prod.snd)) p.2))

/-- The normalization step on the non-degenerate path (both columns with
`max ≠ min`), where every coordinate is an ordinary finite value. -/
def normQ (X : List Pt) : List Pt :=
  X.map (fun p =>
    ((p.1 - qmin (X.map Prod.fst)) / (qmax (X.map Prod.fst) - qmin (X.map Prod.fst)),
     (p.2 - qmin (X.map Prod.snd)) / (qmax (X.map Prod.snd) - qmin (X.map Prod.snd))))

/-- A text annotation of the layout, one per input row: the dict
`dict(x=..., y=..., text=str(digits.target[i]), showarrow=False,
font=dict(size=11, color=...))` of the source.  The colour is recorded as the
index into the 9-colour Set1 palette that the call
`plt.cm.Set1(y[i] / 10.)` selects. -/
structure Anno where
  x : ℚ
  y : ℚ
  text : String
  showarrow : Bool
  fontSize : ℕ
  colorIdx : ℕ
deriving DecidableEq

/-- Marker styling of the scatter trace:
`marker=dict(color='white', size=15, line=dict(color='black', width=1))`. -/
structure Marker where
  color : String
  size : ℕ
  lineColor : String
  lineWidth : ℕ
deriving DecidableEq

/-- The single `go.Scatter` trace of the figure. -/
structure Trace where
  xs : List ℚ
  ys : List ℚ
  showlegend : Bool
  mode : String
  marker : Marker
deriving DecidableEq

/-- One axis configuration:
`dict(ticks='', showticklabels=False, showgrid=False, zeroline=False)`. -/
structure AxisCfg where
  ticks : String
  showticklabels : Bool
  showgrid : Bool
  zeroline : Bool
deriving DecidableEq

/-- The `go.Layout` of the figure. -/
structure Layout where
  annotations : List Anno
  title : Option String
  xaxis : AxisCfg
  yaxis : AxisCfg
deriving DecidableEq

/-- The `go.Figure` (the ChartSpec of the specification): a data list of
traces plus a layout. -/
structure ChartSpec where
  data : List Trace
  layout : Layout
deriving DecidableEq

/-- The index into the 9-colour Set1 qualitative palette selected by
matplotlib when the colormap is called at a scalar `x`: a ListedColormap with
9 entries maps `x` to `floor (x * 9)` clipped into `[0, 8]`.  Modelled from
the documented semantics of `matplotlib.colors.ListedColormap.__call__`,
which the source invokes as `plt.cm.Set1(y[i] / 10.)`. -/
def set1Index (x : ℚ) : ℕ := (min (max (⌊x * 9⌋) 0) 8).toNat

/-- The annotation dict built for one row: position is the normalized row,
text is `str(digits.target[i])`, colour comes from `plt.cm.Set1(y[i] / 10.)`. -/
def mkAnno (p : Pt) (t lab : ℤ) : Anno :=
  { x := p.1, y := p.2, text := toString t, showarrow := false,
    fontSize := 11, colorIdx := set1Index ((lab : ℚ) / 10) }

/-- The annotation loop `for i in range(X.shape[0]): anno.append(...)` of the
source, which indexes the normalized rows, the global `digits.target` and the
global `y` at the same position `i`: `none` models the IndexError raised when
one of the two global vectors is shorter than `X`. -/
def mkAnnos : List Pt → List ℤ → List ℤ → Option (List Anno)
  | [], _, _ => some []
  | p :: ps, t :: ts, lab :: ls => (mkAnnos ps ts ls).map (fun a => mkAnno p t lab :: a)
  | _, _, _ => none

/-- The sentinel row `shown_images = np.array([[1., 1.]])  # just something
big` with which the source seeds the deduplication scan. -/
def seed : Pt := (1, 1)

/-- One iteration of the deduplication loop: the candidate row is appended to
`shown_images` unless `np.min(dist) < 4e-3`, i.e. it is kept exactly when its
squared distance from every current member is at least `thr`. -/
def dedupStep (shown : List Pt) (p : Pt) : List Pt :=
  if ∀ q ∈ shown, thr ≤ sqdist p q then shown ++ [p] else shown

/-- The whole deduplication loop of the source over the scanned rows, started
from the sentinel `[(1, 1)]`. -/
def dedupScan (rows : List Pt) : List Pt := rows.foldl dedupStep [seed]

/-- The rows of the (normalized) input that the deduplication loop of
`plot_embedding` actually keeps: the loop runs for `digitsLen =
digits.data.shape[0]` iterations over the normalized rows, and the kept rows
are the members of the final `shown_images` after its sentinel head. -/
def keptOfX (X : List Pt) (digitsLen : ℕ) : List Pt :=
  (dedupScan ((normQ X).take digitsLen)).drop 1

/-- The scatter trace built from the final `shown_images` list (the source
rebuilds `x_`, `y_` from `shown_images` on every kept iteration, so after the
loop they hold exactly its final members in order). -/
def mkTrace (pts : List Pt) : Trace :=
  { xs := pts.map Prod.fst, ys := pts.map Prod.snd, showlegend := false,
    mode := "markers",
    marker := { color := "white", size := 15, lineColor := "black", lineWidth := 1 } }

/-- The axis configuration used for both axes of the layout: ticks, tick
labels, grid and zero-line all disabled. -/
def axisOff : AxisCfg :=
  { ticks := "", showticklabels := false, showgrid := false, zeroline := false }

/-- A default chart value, used only to extract concrete results with
`Option.getD` in closed statements. -/
def emptyChart : ChartSpec :=
  { data := [],
    layout := { annotations := [], title := none, xaxis := axisOff, yaxis := axisOff } }

/-- The model of `plot_embedding(X, title)` of the source, with the notebook
globals it reads passed explicitly: `digitsTarget` models `digits.target`
(annotation text), `yGlobal` models the global `y` (annotation colour) and
`digitsLen` models `digits.data.shape[0]` (the iteration bound of the
deduplication loop).  `none` models a run that does not return a figure:
ValueError on an empty `X`, the NaN-poisoned output when a column is constant
(the source divides by `max - min` unguarded, see `normalizeX`; that fully
NaN figure is not modelled further), IndexError when a global vector is too
short or `digitsLen` exceeds the row count, and NameError when no row is ever
kept (the trace coordinate lists are only assigned inside the kept branch). -/
def plot_embedding (X : List Pt) (digitsTarget yGlobal : List ℤ) (digitsLen : ℕ)
    (title : Option String) : Option ChartSpec :=
  if X = [] then none
  else if qmax (X.map Prod.fst) = qmin (X.map Prod.fst) ∨
          qmax (X.map Prod.snd) = qmin (X.map Prod.snd) then none
  else
    (mkAnnos (normQ X) digitsTarget yGlobal).bind (fun anno =>
      if digitsLen ≤ (normQ X).length then
        if 2 ≤ (dedupScan ((normQ X).take digitsLen)).length then
          some { data := [mkTrace (dedupScan ((normQ X).take digitsLen))],
                 layout := { annotations := anno, title := title,
                             xaxis := axisOff, yaxis := axisOff } }
        else none
      else none)

/-- The deduplication rule in the (amended) words of the specification: scan
the rows in original order, keep a row exactly when its squared distance from
the sentinel and from every previously kept point is at least `thr`, and
append kept rows in first-seen order.  Stated as a recursion so that the
fold of the source can be proved to refine it. -/
def greedySpec : List Pt → List Pt → List Pt
  | _, [] => []
  | shown, p :: rest =>
    if ∀ q ∈ shown, thr ≤ sqdist p q then p :: greedySpec (shown ++ [p]) rest
    else greedySpec shown rest

/-- The deduplication rule exactly as claim C1 words it: the scan starts from
an empty set of kept points and keeps a row only when its squared distance
from every previously kept point strictly exceeds the threshold. -/
def greedySpecLiteral : List Pt → List Pt → List Pt
  | _, [] => []
  | kept, p :: rest =>
    if ∀ q ∈ kept, thr < sqdist p q then p :: greedySpecLiteral (kept ++ [p]) rest
    else greedySpecLiteral kept rest

/-- `np.uint8` conversion of a float in `[0, 1]` scaled by 255 (the colormap
channels the source converts are always in `[0, 1]`, where the C-style
truncation of `np.uint8` agrees with the floor). -/
def u8 (q : ℚ) : ℕ := (Int.toNat ⌊q * 255⌋) % 256

/-- The `'rgb' + str((C[0], C[1], C[2]))` colour triple built from one
colormap sample. -/
def toRGB (c : ℚ × ℚ × ℚ) : ℕ × ℕ × ℕ := (u8 c.1, u8 c.2.1, u8 c.2.2)

/-- The model of `matplotlib_to_plotly(cmap, pl_entries)` of the source:
`h = 1.0 / (pl_entries - 1)` followed by stops `[k * h, rgb(cmap(k * h))]`
for `k in range(pl_entries)`.  For `pl_entries = 1` the source raises
ZeroDivisionError (`1.0 / 0`), modelled as `none`; for `pl_entries = 0` the
Python subtraction gives `h = -1.0` and the empty range yields `[]`. -/
def matplotlib_to_plotly (cmap : ℚ → ℚ × ℚ × ℚ) (pl_entries : ℕ) :
    Option (List (ℚ × (ℕ × ℕ × ℕ))) :=
  if pl_entries = 1 then none
  else
    some ((List.range pl_entries).map (fun (k : ℕ) =>
      ((k : ℚ) * (1 / ((pl_entries : ℚ) - 1)),
       toRGB (cmap ((k : ℚ) * (1 / ((pl_entries : ℚ) - 1)))))))

end EmbedPlot

namespace EmbedPlot

/-! ### Helper lemmas about column minima and maxima -/

theorem foldl_min_le_init (l : List ℚ) (a : ℚ) : l.foldl min a ≤ a := by
  induction l generalizing a with
  | nil => exact le_refl a
  | cons c t ih => exact le_trans (ih (min a c)) (min_le_left a c)

theorem foldl_min_le_mem {l : List ℚ} {b : ℚ} (a : ℚ) (hb : b ∈ l) : l.foldl min a ≤ b := by
  induction l generalizing a with
  | nil => cases hb
  | cons c t ih =>
    rcases List.mem_cons.mp hb with rfl | hb2
    · exact le_trans (foldl_min_le_init t (min a b)) (min_le_right a b)
    · exact ih (min a c) hb2

theorem foldl_min_mem (l : List ℚ) (a : ℚ) : l.foldl min a = a ∨ l.foldl min a ∈ l := by
  induction l generalizing a with
  | nil => exact Or.inl rfl
  | cons c t ih =>
    rcases ih (min a c) with h | h
    · rcases min_choice a c with h2 | h2
      · exact Or.inl (by rw [List.foldl_cons, h, h2])
      · exact Or.inr (by rw [List.foldl_cons, h, h2]; exact List.mem_cons_self c t)
    · exact Or.inr (List.mem_cons_of_mem c h)

theorem le_foldl_max_init (l : List ℚ) (a : ℚ) : a ≤ l.foldl max a := by
  induction l generalizing a with
  | nil => exact le_refl a
  | cons c t ih => exact le_trans (le_max_left a c) (ih (max a c))

theorem le_foldl_max_mem {l : List ℚ} {b : ℚ} (a : ℚ) (hb : b ∈ l) : b ≤ l.foldl max a := by
  induction l generalizing a with
  | nil => cases hb
  | cons c t ih =>
    rcases List.mem_cons.mp hb with rfl | hb2
    · exact le_trans (le_max_right a b) (le_foldl_max_init t (max a b))
    · exact ih (max a c) hb2

theorem qmin_le {l : List ℚ} {b : ℚ} (hb : b ∈ l) : qmin l ≤ b := by
  match l with
  | [] => cases hb
  | a :: t =>
    show t.foldl min a ≤ b
    rcases List.mem_cons.mp hb with rfl | hb2
    · exact foldl_min_le_init t b
    · exact foldl_min_le_mem a hb2

theorem le_qmax {l : List ℚ} {b : ℚ} (hb : b ∈ l) : b ≤ qmax l := by
  match l with
  | [] => cases hb
  | a :: t =>
    show b ≤ t.foldl max a
    rcases List.mem_cons.mp hb with rfl | hb2
    · exact le_foldl_max_init t b
    · exact le_foldl_max_mem a hb2

theorem qmin_mem {l : List ℚ} (hl : l ≠ []) : qmin l ∈ l := by
  match l with
  | [] => exact absurd rfl hl
  | a :: t =>
    show t.foldl min a ∈ a :: t
    rcases foldl_min_mem t a with h | h
    · rw [h]; exact List.mem_cons_self a t
    · exact List.mem_cons_of_mem a h

/-! ### Helper lemmas about the deduplication scan -/

theorem sqdist_comm (p q : Pt) : sqdist p q = sqdist q p := by
  unfold sqdist; ring

theorem greedySpec_cons (s : List Pt) (p : Pt) (rest : List Pt) :
    greedySpec s (p :: rest) =
      if ∀ q ∈ s, thr ≤ sqdist p q then p :: greedySpec (s ++ [p]) rest
      else greedySpec s rest := rfl

theorem foldl_dedup (l : List Pt) :
    ∀ s, l.foldl dedupStep s = s ++ greedySpec s l := by
  induction l with
  | nil => intro s; simp [greedySpec]
  | cons p rest ih =>
    intro s
    rw [List.foldl_cons, greedySpec_cons]
    by_cases h : ∀ q ∈ s, thr ≤ sqdist p q
    · rw [show dedupStep s p = s ++ [p] from if_pos h, if_pos h, ih (s ++ [p]),
        List.append_assoc, List.singleton_append]
    · rw [show dedupStep s p = s from if_neg h, if_neg h, ih s]

theorem greedySpec_sublist (l : List Pt) : ∀ s, (greedySpec s l).Sublist l := by
  induction l with
  | nil => intro s; exact List.Sublist.refl []
  | cons p rest ih =>
    intro s
    rw [greedySpec_cons]
    split_ifs with h
    · exact (ih (s ++ [p])).cons₂ p
    · exact (ih s).cons p

theorem mem_greedy_or_close (l : List Pt) :
    ∀ s, ∀ p ∈ l, p ∈ greedySpec s l ∨ ∃ q ∈ s ++ greedySpec s l, sqdist p q < thr := by
  induction l with
  | nil => intro s p hp; cases hp
  | cons a rest ih =>
    intro s p hp
    rw [greedySpec_cons]
    by_cases h : ∀ q ∈ s, thr ≤ sqdist a q
    · rw [if_pos h]
      rcases List.mem_cons.mp hp with rfl | hp2
      · exact Or.inl (List.mem_cons_self _ _)
      · rcases ih (s ++ [a]) p hp2 with h2 | ⟨q, hq, hqd⟩
        · exact Or.inl (List.mem_cons_of_mem a h2)
        · refine Or.inr ⟨q, ?_, hqd⟩
          rw [List.append_assoc, List.singleton_append] at hq
          exact hq
    · rw [if_neg h]
      push_neg at h
      obtain ⟨q, hq, hqd⟩ := h
      rcases List.mem_cons.mp hp with rfl | hp2
      · exact Or.inr ⟨q, List.mem_append_left _ hq, hqd⟩
      · exact ih s p hp2

theorem far_of_mem_greedy (l : List Pt) :
    ∀ s r, r ∈ greedySpec s l → ∀ q ∈ s, thr ≤ sqdist r q := by
  induction l with
  | nil => intro s r hr; cases hr
  | cons a rest ih =>
    intro s r hr q hq
    rw [greedySpec_cons] at hr
    split_ifs at hr with h
    · rcases List.mem_cons.mp hr with rfl | hr2
      · exact h q hq
      · exact ih (s ++ [a]) r hr2 q (List.mem_append_left _ hq)
    · exact ih s r hr q hq

theorem greedy_all_kept (l : List Pt) :
    ∀ s, (∀ p ∈ l, ∀ q ∈ s, thr ≤ sqdist p q) →
      l.Pairwise (fun p q => thr ≤ sqdist p q) → greedySpec s l = l := by
  induction l with
  | nil => intro s _ _; rfl
  | cons a rest ih =>
    intro s hfar hpw
    rw [greedySpec_cons, if_pos (hfar a (List.mem_cons_self a rest))]
    congr 1
    apply ih (s ++ [a])
    · intro p hp q hq
      rcases List.mem_append.mp hq with hq2 | hq2
      · exact hfar p (List.mem_cons_of_mem a hp) q hq2
      · rcases List.mem_singleton.mp hq2 with rfl
        rw [sqdist_comm]
        exact (List.pairwise_cons.mp hpw).1 p hp
    · exact (List.pairwise_cons.mp hpw).2

theorem dedupScan_eq (rows : List Pt) :
    dedupScan rows = seed :: greedySpec [seed] rows := by
  unfold dedupScan
  rw [foldl_dedup]
  rfl

theorem keptOfX_eq (X : List Pt) (dl : ℕ) :
    keptOfX X dl = greedySpec [seed] ((normQ X).take dl) := by
  unfold keptOfX
  rw [dedupScan_eq]
  rfl

end EmbedPlot

namespace EmbedPlot

/-! ### Helper lemmas about the annotation loop -/

theorem mkAnnos_cons (p : Pt) (ps : List Pt) (t : ℤ) (ts : List ℤ) (lab : ℤ) (ls : List ℤ) :
    mkAnnos (p :: ps) (t :: ts) (lab :: ls) =
      (mkAnnos ps ts ls).map (fun a => mkAnno p t lab :: a) := rfl

theorem mkAnnos_some (Xn : List Pt) :
    ∀ ts ls : List ℤ, Xn.length ≤ ts.length → Xn.length ≤ ls.length →
      ∃ A, mkAnnos Xn ts ls = some A ∧ A.length = Xn.length := by
  induction Xn with
  | nil => intro ts ls _ _; exact ⟨[], rfl, rfl⟩
  | cons p ps ih =>
    intro ts ls h1 h2
    match ts, ls with
    | [], _ => simp at h1
    | _ :: _, [] => simp at h2
    | t :: ts2, lab :: ls2 =>
      obtain ⟨A, hA, hlen⟩ := ih ts2 ls2 (by simpa using h1) (by simpa using h2)
      refine ⟨mkAnno p t lab :: A, ?_, by simp [hlen]⟩
      rw [mkAnnos_cons, hA]
      rfl

theorem mkAnnos_get (Xn : List Pt) :
    ∀ (ts ls : List ℤ) (A : List Anno) (i : ℕ) (p : Pt) (t lab : ℤ),
      mkAnnos Xn ts ls = some A →
      Xn.get? i = some p → ts.get? i = some t → ls.get? i = some lab →
      A.get? i = some (mkAnno p t lab) := by
  induction Xn with
  | nil => intro ts ls A i p t lab _ hp _ _; simp at hp
  | cons p0 ps ih =>
    intro ts ls A i p t lab hAnn hp ht hl
    match ts, ls with
    | [], _ => exact absurd hAnn (by simp [mkAnnos])
    | _ :: _, [] => exact absurd hAnn (by simp [mkAnnos])
    | t0 :: ts2, lab0 :: ls2 =>
      rw [mkAnnos_cons] at hAnn
      rcases Option.map_eq_some'.mp hAnn with ⟨A2, hA2, hAeq⟩
      subst hAeq
      match i with
      | 0 =>
        simp only [List.get?] at hp ht hl
        rcases Option.some.inj hp with rfl
        rcases Option.some.inj ht with rfl
        rcases Option.some.inj hl with rfl
        rfl
      | i + 1 =>
        simp only [List.get?] at hp ht hl ⊢
        exact ih ts2 ls2 A2 i p t lab hA2 hp ht hl
/-! ### At least one row is always kept on the non-degenerate path -/

theorem thr_lt_one : thr < 1 := by norm_num [thr]

theorem one_le_sqdist_seed {p : Pt} (hp : p.1 = 0) : 1 ≤ sqdist p seed := by
  have hs : sqdist p seed = (p.1 - 1) ^ 2 + (p.2 - 1) ^ 2 := rfl
  rw [hs, hp]
  nlinarith [sq_nonneg (p.2 - 1)]

theorem normQ_exists_zero (X : List Pt) (hne : X ≠ []) :
    ∃ p ∈ normQ X, p.1 = 0 := by
  have hmapne : X.map Prod.fst ≠ [] := fun h0 => hne (List.map_eq_nil_iff.mp h0)
  obtain ⟨r, hr, hr1⟩ := List.mem_map.mp (qmin_mem hmapne)
  refine ⟨_, List.mem_map.mpr ⟨r, hr, rfl⟩, ?_⟩
  show (r.1 - qmin (X.map Prod.fst)) / (qmax (X.map Prod.fst) - qmin (X.map Prod.fst)) = 0
  rw [hr1, sub_self, zero_div]

theorem two_le_dedup (X : List Pt) (hne : X ≠ []) :
    2 ≤ (dedupScan (normQ X)).length := by
  obtain ⟨p, hpmem, hp1⟩ := normQ_exists_zero X hne
  have hGne : greedySpec [seed] (normQ X) ≠ [] := by
    rcases mem_greedy_or_close (normQ X) [seed] p hpmem with h | ⟨q, hq, hqd⟩
    · exact List.ne_nil_of_mem h
    · rcases List.mem_append.mp hq with hq2 | hq2
      · have hq3 : q = seed := List.mem_singleton.mp hq2
        rw [hq3] at hqd
        exact absurd hqd
          (not_lt.mpr (le_trans (le_of_lt thr_lt_one) (one_le_sqdist_seed hp1)))
      · exact List.ne_nil_of_mem hq2
  have hpos : 0 < (greedySpec [seed] (normQ X)).length := List.length_pos.mpr hGne
  rw [dedupScan_eq, List.length_cons]
  omega

/-! ### Inversion and construction of the full chart -/

theorem plot_inv (X : List Pt) (dt yg : List ℤ) (dl : ℕ) (ttl : Option String)
    (spec : ChartSpec) (h : plot_embedding X dt yg dl ttl = some spec) :
    ∃ A, mkAnnos (normQ X) dt yg = some A ∧
      spec = { data := [mkTrace (dedupScan ((normQ X).take dl))],
               layout := { annotations := A, title := ttl,
                           xaxis := axisOff, yaxis := axisOff } } := by
  unfold plot_embedding at h
  by_cases h1 : X = []
  · rw [if_pos h1] at h; cases h
  rw [if_neg h1] at h
  by_cases h2 : qmax (X.map Prod.fst) = qmin (X.map Prod.fst) ∨
      qmax (X.map Prod.snd) = qmin (X.map Prod.snd)
  · rw [if_pos h2] at h; cases h
  rw [if_neg h2] at h
  cases hA : mkAnnos (normQ X) dt yg with
  | none => rw [hA] at h; cases h
  | some A =>
    rw [hA] at h
    simp only [Option.some_bind] at h
    by_cases h3 : dl ≤ (normQ X).length
    · rw [if_pos h3] at h
      by_cases h4 : 2 ≤ (dedupScan ((normQ X).take dl)).length
      · rw [if_pos h4] at h
        exact ⟨A, rfl, (Option.some.inj h).symm⟩
      · rw [if_neg h4] at h; cases h
    · rw [if_neg h3] at h; cases h

theorem plot_success (X : List Pt) (dt yg : List ℤ) (ttl : Option String)
    (hne : X ≠ [])
    (hx : qmin (X.map Prod.fst) < qmax (X.map Prod.fst))
    (hy : qmin (X.map Prod.snd) < qmax (X.map Prod.snd))
    (hdt : X.length ≤ dt.length) (hyg : X.length ≤ yg.length) :
    (mkAnnos (normQ X) dt yg).map List.length = some X.length ∧
    plot_embedding X dt yg X.length ttl =
      some { data := [mkTrace (seed :: keptOfX X X.length)],
             layout := { annotations := (mkAnnos (normQ X) dt yg).getD [],
                         title := ttl, xaxis := axisOff, yaxis := axisOff } } := by
  have hlenN : (normQ X).length = X.length := by simp [normQ]
  obtain ⟨A, hA, hAlen⟩ :=
    mkAnnos_some (normQ X) dt yg (by rw [hlenN]; exact hdt) (by rw [hlenN]; exact hyg)
  have htake : (normQ X).take X.length = normQ X := by
    rw [← hlenN]
    exact List.take_length _
  have htrace : dedupScan ((normQ X).take X.length) = seed :: keptOfX X X.length := by
    rw [keptOfX_eq, dedupScan_eq]
  constructor
  · rw [hA, Option.map_some', hAlen, hlenN]
  · unfold plot_embedding
    rw [if_neg hne,
      if_neg (by push_neg; exact ⟨(ne_of_gt hx), (ne_of_gt hy)⟩), hA]
    simp only [Option.some_bind]
    rw [if_pos (le_of_eq hlenN.symm)]
    rw [if_pos (by rw [htake]; exact two_le_dedup X hne)]
    rw [htrace, Option.getD_some]

end EmbedPlot

namespace EmbedPlot

theorem foldl_max_mem (l : List ℚ) (a : ℚ) : l.foldl max a = a ∨ l.foldl max a ∈ l := by
  induction l generalizing a with
  | nil => exact Or.inl rfl
  | cons c t ih =>
    rcases ih (max a c) with h | h
    · rcases max_choice a c with h2 | h2
      · exact Or.inl (by rw [List.foldl_cons, h, h2])
      · exact Or.inr (by rw [List.foldl_cons, h, h2]; exact List.mem_cons_self c t)
    · exact Or.inr (List.mem_cons_of_mem c h)

theorem qmax_mem {l : List ℚ} (hl : l ≠ []) : qmax l ∈ l := by
  match l with
  | [] => exact absurd rfl hl
  | a :: t =>
    show t.foldl max a ∈ a :: t
    rcases foldl_max_mem t a with h | h
    · rw [h]; exact List.mem_cons_self a t
    · exact List.mem_cons_of_mem a h

/-! ### Claim C1 -/

/-- C1 (amended): inside plot_embedding the dedup step scans the rows of the
normalized input in original order starting from a kept set that already
contains the sentinel point (1,1), keeps a row exactly when its squared
Euclidean distance from the sentinel and from every previously kept point is
at least 4e-3 (not strictly above it), and the kept points appear in
first-seen (original row) order. -/
theorem dedup_scan_characterization (rows X : List Pt) (dl : ℕ) :
    dedupScan rows = seed :: greedySpec [seed] rows ∧
    (greedySpec [seed] rows).Sublist rows ∧
    keptOfX X dl = greedySpec [seed] ((normQ X).take dl) :=
  ⟨dedupScan_eq rows, greedySpec_sublist rows [seed], keptOfX_eq X dl⟩

/-- C1 counterexample: on the normalized rows [(0,0), (1/50,3/50), (1,1)]
(normalization is the identity here) the code keeps rows 0 and 1 and drops
row 2, while the rule exactly as the claim words it (empty starting set and
strictly-exceeds comparison) would drop row 1 (its squared distance from row
0 is exactly 4e-3) and keep row 2. -/
theorem dedup_differs_from_claim_literal :
    keptOfX [((0:ℚ), (0:ℚ)), (1/50, 3/50), (1, 1)] 3 ≠
      greedySpecLiteral [] (normQ [((0:ℚ), (0:ℚ)), (1/50, 3/50), (1, 1)]) := by
  with_unfolding_all decide

/-! ### Claim C2 -/

/-- C2: for an input with at least two rows and both columns non-degenerate
(per-column max above min), every coordinate produced by the normalization
step (v - min) / (max - min) of plot_embedding lies in the closed interval
[0, 1]. -/
theorem normalized_coords_in_unit_interval (X : List Pt) (_hN : 2 ≤ X.length)
    (hx : qmin (X.map Prod.fst) < qmax (X.map Prod.fst))
    (hy : qmin (X.map Prod.snd) < qmax (X.map Prod.snd))
    (p : Pt) (hp : p ∈ normQ X) :
    0 ≤ p.1 ∧ p.1 ≤ 1 ∧ 0 ≤ p.2 ∧ p.2 ≤ 1 := by
  obtain ⟨r, hr, rfl⟩ := List.mem_map.mp hp
  have h1 : qmin (X.map Prod.fst) ≤ r.1 := qmin_le (List.mem_map_of_mem Prod.fst hr)
  have h2 : r.1 ≤ qmax (X.map Prod.fst) := le_qmax (List.mem_map_of_mem Prod.fst hr)
  have h3 : qmin (X.map Prod.snd) ≤ r.2 := qmin_le (List.mem_map_of_mem Prod.snd hr)
  have h4 : r.2 ≤ qmax (X.map Prod.snd) := le_qmax (List.mem_map_of_mem Prod.snd hr)
  refine ⟨?_, ?_, ?_, ?_⟩
  · exact div_nonneg (sub_nonneg.mpr h1) (le_of_lt (sub_pos.mpr hx))
  · exact (div_le_one (sub_pos.mpr hx)).mpr (sub_le_sub_right h2 _)
  · exact div_nonneg (sub_nonneg.mpr h3) (le_of_lt (sub_pos.mpr hy))
  · exact (div_le_one (sub_pos.mpr hy)).mpr (sub_le_sub_right h4 _)

/-- C2 witness: the normalized first row of [[0,3],[2,5]] is (0,0), inside
the unit square. -/
theorem normalized_coords_witness :
    0 ≤ (((0:ℚ), (0:ℚ)) : Pt).1 ∧ (((0:ℚ), (0:ℚ)) : Pt).1 ≤ 1 ∧
      0 ≤ (((0:ℚ), (0:ℚ)) : Pt).2 ∧ (((0:ℚ), (0:ℚ)) : Pt).2 ≤ 1 :=
  normalized_coords_in_unit_interval [((0:ℚ), (3:ℚ)), (2, 5)] (by decide)
    (by with_unfolding_all decide) (by with_unfolding_all decide)
    ((0:ℚ), (0:ℚ)) (by with_unfolding_all decide)

/-! ### Claim C7 -/

/-- C7 (amended): when a coordinate column of X is constant (per-column
max = min), plot_embedding performs the scaling division unguarded; for every
row the coordinate of that column is then 0/0 = NaN (no finite value is
assigned), modelled by normalizeX returning none for every entry of the
column. -/
theorem constant_column_gives_no_finite_coord (X : List Pt) (hne : X ≠ [])
    (hc : ∀ p ∈ X, ∀ q ∈ X, p.1 = q.1) :
    ∀ r ∈ normalizeX X, r.1 = none := by
  intro r hr
  obtain ⟨s, hs, rfl⟩ := List.mem_map.mp hr
  show nrmC (qmin (X.map Prod.fst)) (qmax (X.map Prod.fst)) s.1 = none
  have hmapne : X.map Prod.fst ≠ [] := fun h0 => hne (List.map_eq_nil_iff.mp h0)
  obtain ⟨a, ha, ha1⟩ := List.mem_map.mp (qmin_mem hmapne)
  obtain ⟨b, hb, hb1⟩ := List.mem_map.mp (qmax_mem hmapne)
  have hmx : qmax (X.map Prod.fst) = qmin (X.map Prod.fst) := by
    rw [← ha1, ← hb1]
    exact hc b hb a ha
  unfold nrmC
  rw [if_pos hmx]

/-- C7 witness: for X = [[0,0],[0,1]] the first column is constant and the
first normalized row has no finite first coordinate. -/
theorem constant_column_witness :
    ((normalizeX [((0:ℚ), (0:ℚ)), (0, 1)]).headD (none, none)).1 = none :=
  constant_column_gives_no_finite_coord [((0:ℚ), (0:ℚ)), (0, 1)] (by decide)
    (by with_unfolding_all decide)
    ((normalizeX [((0:ℚ), (0:ℚ)), (0, 1)]).headD (none, none))
    (by with_unfolding_all decide)

/-- C7 counterexample: for X = [[0,0],[0,1]] (first column constant) the
scaling step computes 0/0 for both first coordinates: the column gets NaN
(no explicitly defined finite coordinate), refuting the claim that the code
assigns one. -/
theorem constant_column_nan :
    (normalizeX [((0:ℚ), (0:ℚ)), (0, 1)]).map Prod.fst = [none, none] := by
  with_unfolding_all decide

/-! ### Claim C10 -/

/-- C10: for pl_entries at least 2, matplotlib_to_plotly returns exactly
pl_entries colorscale stops, the k-th stop sits at position k/(pl_entries-1),
the first stop is at 0 and the last at 1; for pl_entries = 1 the computation
divides by zero (ZeroDivisionError, modelled as none). -/
theorem colorscale_stops (cmap : ℚ → ℚ × ℚ × ℚ) (n k : ℕ) (h2 : 2 ≤ n) (hk : k < n) :
    (matplotlib_to_plotly cmap n).map List.length = some n ∧
    ((matplotlib_to_plotly cmap n).getD []).get? k =
      some ((k : ℚ) / ((n : ℚ) - 1), toRGB (cmap ((k : ℚ) / ((n : ℚ) - 1)))) ∧
    (((matplotlib_to_plotly cmap n).getD []).map Prod.fst).get? 0 = some 0 ∧
    (((matplotlib_to_plotly cmap n).getD []).map Prod.fst).get? (n - 1) = some 1 ∧
    matplotlib_to_plotly cmap 1 = none := by
  have hne1 : n ≠ 1 := by omega
  have hmp : matplotlib_to_plotly cmap n =
      some ((List.range n).map (fun (k2 : ℕ) =>
        ((k2 : ℚ) * (1 / ((n : ℚ) - 1)),
         toRGB (cmap ((k2 : ℚ) * (1 / ((n : ℚ) - 1))))))) := by
    unfold matplotlib_to_plotly
    rw [if_neg hne1]
  have hcast : (2 : ℚ) ≤ (n : ℚ) := by exact_mod_cast h2
  have hnz : ((n : ℚ) - 1) ≠ 0 := by
    intro h0
    rw [sub_eq_zero] at h0
    rw [h0] at hcast
    norm_num at hcast
  refine ⟨?_, ?_, ?_, ?_, ?_⟩
  · rw [hmp, Option.map_some', List.length_map, List.length_range]
  · rw [hmp, Option.getD_some, List.get?_map, List.get?_range hk, Option.map_some',
      mul_one_div]
  · rw [hmp, Option.getD_some, List.map_map, List.get?_map,
      List.get?_range (by omega : 0 < n), Option.map_some']
    simp only [Function.comp_apply, Nat.cast_zero, zero_mul]
  · rw [hmp, Option.getD_some, List.map_map, List.get?_map,
      List.get?_range (by omega : n - 1 < n), Option.map_some']
    simp only [Function.comp_apply]
    rw [mul_one_div, Nat.cast_sub (by omega : 1 ≤ n), Nat.cast_one, div_self hnz]
  · unfold matplotlib_to_plotly
    rw [if_pos rfl]

/-- C10 witness: a constant black colormap with 3 entries gives stops at
0, 1/2, 1, and a single entry divides by zero. -/
theorem colorscale_stops_witness :
    (matplotlib_to_plotly (fun _ => ((0:ℚ), (0:ℚ), (0:ℚ))) 3).map List.length = some 3 ∧
    ((matplotlib_to_plotly (fun _ => ((0:ℚ), (0:ℚ), (0:ℚ))) 3).getD []).get? 2 =
      some (((2:ℕ) : ℚ) / (((3:ℕ) : ℚ) - 1),
        toRGB ((fun _ => ((0:ℚ), (0:ℚ), (0:ℚ)))
          (((2:ℕ) : ℚ) / (((3:ℕ) : ℚ) - 1)))) ∧
    (((matplotlib_to_plotly (fun _ => ((0:ℚ), (0:ℚ), (0:ℚ))) 3).getD []).map Prod.fst).get? 0 =
      some 0 ∧
    (((matplotlib_to_plotly (fun _ => ((0:ℚ), (0:ℚ), (0:ℚ))) 3).getD []).map Prod.fst).get? (3 - 1) =
      some 1 ∧
    matplotlib_to_plotly (fun _ => ((0:ℚ), (0:ℚ), (0:ℚ))) 1 = none :=
  colorscale_stops (fun _ => ((0:ℚ), (0:ℚ), (0:ℚ))) 3 2 (by decide) (by decide)

end EmbedPlot

namespace EmbedPlot

/-! ### Claim C3 -/

/-- C3 (amended): plot_embedding performs no input validation and has no
InvalidInputError: on a well-scaled input whose global label vector y is
strictly longer than the number of rows N (a length mismatch), the function
still returns a ChartSpec instead of failing. -/
theorem plot_no_validation (X : List Pt) (dt yg : List ℤ) (ttl : Option String)
    (hne : X ≠ [])
    (hx : qmin (X.map Prod.fst) < qmax (X.map Prod.fst))
    (hy : qmin (X.map Prod.snd) < qmax (X.map Prod.snd))
    (hdt : X.length ≤ dt.length) (hyg : X.length < yg.length) :
    (plot_embedding X dt yg X.length ttl).isSome = true := by
  rcases plot_success X dt yg ttl hne hx hy hdt (le_of_lt hyg) with ⟨_, h⟩
  rw [h]
  rfl

/-- C3 witness: X = [[0,0],[1,1]] with the global y of length 4 produces a
chart. -/
theorem plot_no_validation_witness :
    (plot_embedding [((0:ℚ), (0:ℚ)), (1, 1)] [0, 1] [5, 6, 7, 8] 2 none).isSome = true :=
  plot_no_validation [((0:ℚ), (0:ℚ)), (1, 1)] [0, 1] [5, 6, 7, 8] none (by decide)
    (by with_unfolding_all decide) (by with_unfolding_all decide)
    (by decide) (by decide)

/-- C3 counterexample: for X with N = 2 rows and the global label vector y of
length 3 (a length mismatch the claim says must fail with InvalidInputError),
plot_embedding returns a ChartSpec. -/
theorem plot_ignores_label_length_mismatch :
    (plot_embedding [((0:ℚ), (0:ℚ)), (1, 1)] [0, 1] [0, 1, 7] 2 none).isSome = true := by
  with_unfolding_all decide

/-! ### Claim C4 -/

/-- C4 (amended): if no two distinct points of the scanned (normalized) rows
are within the dedup threshold of each other AND no row is within the
threshold of the sentinel (1,1), the kept set equals the full input set in
order.  For X = [[0,0],[1,1]], y = [0,1]: normalization leaves X unchanged
and two annotations are emitted, but the row at (1,1) is suppressed by the
sentinel, so the kept set is only [(0,0)]. -/
theorem dedup_keeps_all_when_pairwise_far (L : List Pt)
    (hpair : L.Pairwise (fun p q => thr ≤ sqdist p q))
    (hseed : ∀ p ∈ L, thr ≤ sqdist p seed) :
    dedupScan L = seed :: L ∧
    normQ [((0:ℚ), (0:ℚ)), (1, 1)] = [((0:ℚ), (0:ℚ)), (1, 1)] ∧
    keptOfX [((0:ℚ), (0:ℚ)), (1, 1)] 2 = [((0:ℚ), (0:ℚ))] ∧
    (plot_embedding [((0:ℚ), (0:ℚ)), (1, 1)] [0, 1] [0, 1] 2 none).map
      (fun s => s.layout.annotations.length) = some 2 := by
  refine ⟨?_, ?_, ?_, ?_⟩
  · rw [dedupScan_eq]
    congr 1
    apply greedy_all_kept
    · intro p hp q hq
      rcases List.mem_singleton.mp hq with rfl
      exact hseed p hp
    · exact hpair
  · with_unfolding_all decide
  · with_unfolding_all decide
  · with_unfolding_all decide

/-- C4 witness: the rows [(0,0), (1/2,1/2)] are pairwise far and far from the
sentinel, and all of them are kept. -/
theorem dedup_keeps_all_witness :
    dedupScan [((0:ℚ), (0:ℚ)), (1/2, 1/2)] = seed :: [((0:ℚ), (0:ℚ)), (1/2, 1/2)] ∧
    normQ [((0:ℚ), (0:ℚ)), (1, 1)] = [((0:ℚ), (0:ℚ)), (1, 1)] ∧
    keptOfX [((0:ℚ), (0:ℚ)), (1, 1)] 2 = [((0:ℚ), (0:ℚ))] ∧
    (plot_embedding [((0:ℚ), (0:ℚ)), (1, 1)] [0, 1] [0, 1] 2 none).map
      (fun s => s.layout.annotations.length) = some 2 :=
  dedup_keeps_all_when_pairwise_far [((0:ℚ), (0:ℚ)), (1/2, 1/2)]
    (by with_unfolding_all decide) (by with_unfolding_all decide)

/-- C4 counterexample: for X = [[0,0],[1,1]] all pairwise squared distances
exceed the threshold, yet the kept set is not the full input set: the row at
(1,1) is suppressed by the sentinel. -/
theorem dedup_drops_far_point_near_seed :
    ([((0:ℚ), (0:ℚ)), (1, 1)] : List Pt).Pairwise (fun p q => thr ≤ sqdist p q) ∧
    keptOfX [((0:ℚ), (0:ℚ)), (1, 1)] 2 ≠ [((0:ℚ), (0:ℚ)), (1, 1)] := by
  constructor
  · refine List.Pairwise.cons ?_ (List.pairwise_singleton _ _)
    intro q hq
    rcases List.mem_singleton.mp hq with rfl
    show thr ≤ sqdist (0, 0) (1, 1)
    with_unfolding_all decide
  · with_unfolding_all decide

/-! ### Claim C5 -/

/-- C5 (amended): for every valid N-row input (nonempty, both columns
non-degenerate, global vectors long enough, dedup bound equal to N) the
emitted ChartSpec has exactly N text annotations (one per row, independent of
the dedup filter), and a single marker trace whose points are the sentinel
(1,1) followed by exactly the kept points, with the legend disabled
(mkTrace sets showlegend false) and both axes configured by axisOff (ticks,
gridlines and zero-lines disabled). -/
theorem chart_contents (X : List Pt) (dt yg : List ℤ) (ttl : Option String)
    (hne : X ≠ [])
    (hx : qmin (X.map Prod.fst) < qmax (X.map Prod.fst))
    (hy : qmin (X.map Prod.snd) < qmax (X.map Prod.snd))
    (hdt : X.length ≤ dt.length) (hyg : X.length ≤ yg.length) :
    (mkAnnos (normQ X) dt yg).map List.length = some X.length ∧
    plot_embedding X dt yg X.length ttl =
      some { data := [mkTrace (seed :: keptOfX X X.length)],
             layout := { annotations := (mkAnnos (normQ X) dt yg).getD [],
                         title := ttl, xaxis := axisOff, yaxis := axisOff } } :=
  plot_success X dt yg ttl hne hx hy hdt hyg

/-- C5 witness: for X = [[0,0],[1,1]] the chart has 2 annotations and a trace
of the sentinel followed by the single kept point. -/
theorem chart_contents_witness :
    (mkAnnos (normQ [((0:ℚ), (0:ℚ)), (1, 1)]) [0, 1] [0, 1]).map List.length = some 2 ∧
    plot_embedding [((0:ℚ), (0:ℚ)), (1, 1)] [0, 1] [0, 1] 2 none =
      some { data := [mkTrace (seed :: keptOfX [((0:ℚ), (0:ℚ)), (1, 1)] 2)],
             layout := { annotations :=
                           (mkAnnos (normQ [((0:ℚ), (0:ℚ)), (1, 1)]) [0, 1] [0, 1]).getD [],
                         title := none, xaxis := axisOff, yaxis := axisOff } } :=
  chart_contents [((0:ℚ), (0:ℚ)), (1, 1)] [0, 1] [0, 1] none (by decide)
    (by with_unfolding_all decide) (by with_unfolding_all decide)
    (by decide) (by decide)

/-- C5 counterexample: the marker trace is not over exactly the kept points:
for X = [[0,0],[1,1]] it additionally contains the sentinel (1,1) as its
first marker. -/
theorem trace_not_exactly_kept_points :
    ((plot_embedding [((0:ℚ), (0:ℚ)), (1, 1)] [0, 1] [0, 1] 2 none).getD emptyChart).data ≠
      [mkTrace (keptOfX [((0:ℚ), (0:ℚ)), (1, 1)] 2)] := by
  with_unfolding_all decide

/-! ### Claim C6 -/

/-- C6 (amended): plot_embedding is deterministic and side-effect free given
its argument X, the title, and the ambient globals it reads (digits.target,
y and the digits row count); moreover the marker trace — the kept-point list
and its order — depends only on X and the digits row count: two successful
runs that agree on those agree on the entire data part of the chart, whatever
the label globals and title are. -/
theorem chart_trace_independent_of_globals (X : List Pt) (dl : ℕ)
    (dt1 yg1 dt2 yg2 : List ℤ) (t1 t2 : Option String) (s1 s2 : ChartSpec)
    (h1 : plot_embedding X dt1 yg1 dl t1 = some s1)
    (h2 : plot_embedding X dt2 yg2 dl t2 = some s2) :
    s1.data = s2.data := by
  obtain ⟨A1, hA1, hs1⟩ := plot_inv X dt1 yg1 dl t1 s1 h1
  obtain ⟨A2, hA2, hs2⟩ := plot_inv X dt2 yg2 dl t2 s2 h2
  rw [hs1, hs2]

/-- C6 witness: two runs on the same X with different digits.target, y and
title have identical trace data. -/
theorem chart_trace_independent_witness :
    ((plot_embedding [((0:ℚ), (0:ℚ)), (1, 1)] [0, 1] [0, 1] 2 none).getD emptyChart).data =
    ((plot_embedding [((0:ℚ), (0:ℚ)), (1, 1)] [5, 1] [9, 1] 2 (some "t")).getD
        emptyChart).data :=
  chart_trace_independent_of_globals [((0:ℚ), (0:ℚ)), (1, 1)] 2 [0, 1] [0, 1] [5, 1] [9, 1]
    none (some "t")
    ((plot_embedding [((0:ℚ), (0:ℚ)), (1, 1)] [0, 1] [0, 1] 2 none).getD emptyChart)
    ((plot_embedding [((0:ℚ), (0:ℚ)), (1, 1)] [5, 1] [9, 1] 2 (some "t")).getD emptyChart)
    (by with_unfolding_all decide) (by with_unfolding_all decide)

/-- C6 counterexample: plot_embedding is not a function of (X, y, title)
alone: two runs with identical X, identical global y and identical title but
different global digits.target (which the claim counts as "other program
state") produce different ChartSpecs. -/
theorem chart_depends_on_global_digits_target :
    plot_embedding [((0:ℚ), (0:ℚ)), (1, 1)] [0, 1] [0, 1] 2 none ≠
      plot_embedding [((0:ℚ), (0:ℚ)), (1, 1)] [5, 1] [0, 1] 2 none := by
  with_unfolding_all decide

/-! ### Claim C8 -/

/-- C8 (amended): for every input row i, the emitted chart carries a text
annotation positioned at row i of the normalized input, whose text is the
string of entry i of the global digits.target (which the notebook sets equal
to the label vector y), with showarrow disabled and font size 11, and whose
colour is the Set1 palette entry selected by evaluating the colormap at
y[i]/10 — the index clamp(floor(9 * y[i] / 10), 0, 8), not the label value
modulo the palette size. -/
theorem annotation_fields (X : List Pt) (dt yg : List ℤ) (dl : ℕ) (ttl : Option String)
    (spec : ChartSpec) (i : ℕ) (p : Pt) (t lab : ℤ)
    (hs : plot_embedding X dt yg dl ttl = some spec)
    (hp : (normQ X).get? i = some p) (ht : dt.get? i = some t)
    (hl : yg.get? i = some lab) :
    spec.layout.annotations.get? i =
      some { x := p.1, y := p.2, text := toString t, showarrow := false,
             fontSize := 11, colorIdx := set1Index ((lab : ℚ) / 10) } := by
  obtain ⟨A, hA, rfl⟩ := plot_inv X dt yg dl ttl spec hs
  exact mkAnnos_get (normQ X) dt yg A i p t lab hA hp ht hl

/-- C8 witness: with digits.target = [7,1] and y = [9,1], annotation 0 sits
at (0,0), has text "7" and carries the colour selected by Set1 at 9/10. -/
theorem annotation_fields_witness :
    ((plot_embedding [((0:ℚ), (0:ℚ)), (1, 1)] [7, 1] [9, 1] 2 none).getD
        emptyChart).layout.annotations.get? 0 =
      some { x := (((0:ℚ), (0:ℚ)) : Pt).1, y := (((0:ℚ), (0:ℚ)) : Pt).2,
             text := toString (7 : ℤ), showarrow := false, fontSize := 11,
             colorIdx := set1Index (((9 : ℤ) : ℚ) / 10) } :=
  annotation_fields [((0:ℚ), (0:ℚ)), (1, 1)] [7, 1] [9, 1] 2 none
    ((plot_embedding [((0:ℚ), (0:ℚ)), (1, 1)] [7, 1] [9, 1] 2 none).getD emptyChart)
    0 ((0:ℚ), (0:ℚ)) 7 9 (by with_unfolding_all decide) (by with_unfolding_all decide)
    (by with_unfolding_all decide) (by with_unfolding_all decide)

/-- C8 counterexample: with label 9 the annotation colour index is 8 (the
Set1 colormap at 9/10), while the claim rule "label modulo palette size"
would give 9 mod 9 = 0. -/
theorem annotation_color_not_label_mod_palette :
    ((plot_embedding [((0:ℚ), (0:ℚ)), (1, 1)] [0, 9] [0, 9] 2 none).getD
        emptyChart).layout.annotations.map (fun a => a.colorIdx) = [0, 8] ∧
    (8 : ℕ) ≠ 9 % 9 := by
  with_unfolding_all decide

/-! ### Claim C9 -/

/-- C9: whenever plot_embedding emits a chart, the marker trace is exactly
the sentinel (1,1) followed by the kept rows, so the sentinel — which
corresponds to no input row — is the first marker; and every kept row lies at
squared distance at least 4e-3 from (1,1), so any row of the normalized input
within the threshold of (1,1) (such as the row attaining the maximum of both
columns simultaneously, which normalizes to (1,1)) is never among the kept
markers. -/
theorem trace_headed_by_sentinel (X : List Pt) (dt yg : List ℤ) (dl : ℕ)
    (ttl : Option String) (spec : ChartSpec)
    (hs : plot_embedding X dt yg dl ttl = some spec) :
    spec.data = [mkTrace (seed :: keptOfX X dl)] ∧
    (keptOfX X dl).all (fun p => decide (thr ≤ sqdist p seed)) = true := by
  obtain ⟨A, hA, rfl⟩ := plot_inv X dt yg dl ttl spec hs
  constructor
  · show [mkTrace (dedupScan ((normQ X).take dl))] = _
    rw [keptOfX_eq, ← dedupScan_eq]
  · rw [List.all_eq_true]
    intro p hp
    rw [keptOfX_eq] at hp
    exact decide_eq_true
      (far_of_mem_greedy ((normQ X).take dl) [seed] p hp seed (List.mem_singleton_self seed))

/-- C9 witness: on [[0,0],[1/2,1/2],[1,1]] the trace is the sentinel followed
by the two kept rows, and the row (1,1) (at distance 0 from the sentinel) is
not among them. -/
theorem trace_headed_by_sentinel_witness :
    ((plot_embedding [((0:ℚ), (0:ℚ)), (1/2, 1/2), (1, 1)] [3, 4, 5] [3, 4, 5] 3 none).getD
        emptyChart).data =
      [mkTrace (seed :: keptOfX [((0:ℚ), (0:ℚ)), (1/2, 1/2), (1, 1)] 3)] ∧
    (keptOfX [((0:ℚ), (0:ℚ)), (1/2, 1/2), (1, 1)] 3).all
      (fun p => decide (thr ≤ sqdist p seed)) = true :=
  trace_headed_by_sentinel [((0:ℚ), (0:ℚ)), (1/2, 1/2), (1, 1)] [3, 4, 5] [3, 4, 5] 3 none
    ((plot_embedding [((0:ℚ), (0:ℚ)), (1/2, 1/2), (1, 1)] [3, 4, 5] [3, 4, 5] 3 none).getD
      emptyChart)
    (by with_unfolding_all decide)

end EmbedPlot
